import Mathlib

/-!
Verification development for the lucytech web-page analyzer (Go package
`parser`, file `parser/analyzer.go`).

The development gives a shallow embedding of the analyzer in Lean:

* the parsed HTML document tree (`golang.org/x/net/html` nodes) becomes the
  inductive type `HNode`;
* the recursive DOM walk of `realAnalyzePage` becomes the mutually recursive
  functions `walkNode` / `walkList` over `step`, which embeds the per-node
  switch statement;
* the relevant fragment of Go `net/url` (`Parse`, `ParseRequestURI`,
  `URL.IsAbs`, `URL.ResolveReference`, `URL.String`) is modelled over
  character lists (`urlParse`, `parseRequestURI`, `URL.isAbs`,
  `resolveReference`, `urlString`); percent sequences are kept un-decoded and
  user-info is dropped, which is harmless for the analyzed properties;
* `countLinks` becomes a pure fold (`countLinksAux`) plus an explicit probe
  oracle standing for the deterministic mocked transport: each spawned HEAD
  goroutine of the Go code contributes exactly one boolean to the result
  channel, and the single consumer counts the false ones;
* the bounded-concurrency probe phase (the capacity-10 buffered channel
  `sem`) becomes the labelled transition system `ProbeStep`.

Strings are treated as lists of Unicode code points; all character-class
tests of the sources are ASCII, where bytes and code points agree.
-/

/-! ## Character and string helpers

ASCII models of the `strings` package helpers used by the analyzer
(`strings.ToLower`, `strings.ToUpper`, `strings.HasPrefix`,
`strings.Contains`, `strings.Index`, `strings.LastIndex`). All strings the
analyzer inspects with these helpers are ASCII. -/

def isAsciiAlpha (c : Char) : Bool :=
  decide ((65 ≤ c.toNat ∧ c.toNat ≤ 90) ∨ (97 ≤ c.toNat ∧ c.toNat ≤ 122))

def isAsciiDigit (c : Char) : Bool :=
  decide (48 ≤ c.toNat ∧ c.toNat ≤ 57)

/-- Control bytes rejected by `net/url` (`stringContainsCTLByte`). -/
def isCTL (c : Char) : Bool :=
  decide (c.toNat < 32 ∨ c.toNat = 127)

def lowChar (c : Char) : Char :=
  if 65 ≤ c.toNat ∧ c.toNat ≤ 90 then Char.ofNat (c.toNat + 32) else c

def upChar (c : Char) : Char :=
  if 97 ≤ c.toNat ∧ c.toNat ≤ 122 then Char.ofNat (c.toNat - 32) else c

def strLower (s : String) : String := ⟨s.data.map lowChar⟩

def strUpper (s : String) : String := ⟨s.data.map upChar⟩

/-- List-level prefix test, `strings.HasPrefix` on code points. -/
def startsWithL : List Char → List Char → Bool
  | _, [] => true
  | [], _ :: _ => false
  | a :: as, b :: bs => a = b && startsWithL as bs

def strStartsWith (s pat : String) : Bool := startsWithL s.data pat.data

/-- List-level substring test, `strings.Contains` on code points. -/
def infixOfL (s pat : List Char) : Bool :=
  match s with
  | [] => pat.isEmpty
  | _ :: rest => startsWithL s pat || infixOfL rest pat

def containsSub (s pat : String) : Bool := infixOfL s.data pat.data

/-- Cut a list at the first occurrence of `sep`; the second component is
`none` when `sep` does not occur (models `strings.Cut` and
`split(s, sep, true)` of `net/url`). -/
def cutChar (sep : Char) : List Char → List Char × Option (List Char)
  | [] => ([], none)
  | c :: rest =>
    if c = sep then ([], some rest)
    else
      let r := cutChar sep rest
      (c :: r.1, r.2)

/-- Split a list at the first occurrence of `sep`, keeping the separator with
the tail (models the authority/path split of `net/url.parse`). -/
def cutCharKeep (sep : Char) : List Char → List Char × List Char
  | [] => ([], [])
  | c :: rest =>
    if c = sep then ([], c :: rest)
    else
      let r := cutCharKeep sep rest
      (c :: r.1, r.2)

/-- Split on every occurrence of `sep` (models `strings.Cut` iteration in
`resolvePath`). -/
def splitOnChar (sep : Char) : List Char → List (List Char)
  | [] => [[]]
  | c :: rest =>
    if c = sep then [] :: splitOnChar sep rest
    else
      match splitOnChar sep rest with
      | [] => [[c]]
      | seg :: segs => (c :: seg) :: segs

/-- Index of the last occurrence of `sep` plus one, 0 when absent; used for
the `base[:strings.LastIndex(base, sep)+1]` slice of `resolvePath`. -/
def takeToLastChar (sep : Char) : List Char → List Char
  | [] => []
  | c :: rest =>
    if (c :: rest).contains sep then
      if c = sep ∧ ¬ rest.contains sep then [sep]
      else c :: takeToLastChar sep rest
    else []

/-- Every percent sign is followed by two hexadecimal digits; `net/url`
rejects the string otherwise when unescaping hosts, paths and fragments. -/
def validPercent : List Char → Bool
  | [] => true
  | '%' :: a :: b :: rest =>
    (isAsciiDigit a || decide ((65 ≤ a.toNat ∧ a.toNat ≤ 70) ∨ (97 ≤ a.toNat ∧ a.toNat ≤ 102))) &&
    (isAsciiDigit b || decide ((65 ≤ b.toNat ∧ b.toNat ≤ 70) ∨ (97 ≤ b.toNat ∧ b.toNat ≤ 102))) &&
    validPercent rest
  | '%' :: _ => false
  | _ :: rest => validPercent rest

/-! ## The parsed HTML document tree

Model of `golang.org/x/net/html.Node`: a node kind, the `Data` string (tag
name for elements, text for text nodes, declaration for doctype nodes), the
attribute list, and the children in order (`FirstChild` / `NextSibling`). -/

inductive NodeKind where
  | document
  | element
  | text
  | doctype
  | comment
deriving DecidableEq, Repr

inductive HNode where
  | mk (kind : NodeKind) (data : String) (attrs : List (String × String))
      (children : List HNode)
deriving Repr

def HNode.kind : HNode → NodeKind
  | .mk k _ _ _ => k

def HNode.data : HNode → String
  | .mk _ d _ _ => d

def HNode.attrs : HNode → List (String × String)
  | .mk _ _ a _ => a

def HNode.children : HNode → List HNode
  | .mk _ _ _ c => c

-- Depth-first preorder listing of a tree, the visit order of the walk in
-- realAnalyzePage.
mutual
def preorderNode : HNode → List HNode
  | .mk k d a cs => .mk k d a cs :: preorderList cs
def preorderList : List HNode → List HNode
  | [] => []
  | c :: cs => preorderNode c ++ preorderList cs
end

/-! ## The DOM walk

State accumulated by the recursive closure `f` of `realAnalyzePage`
(`parser/analyzer.go`): title, heading counters, login-form flag and the raw
href list. The Go heading map becomes an association list with the
insertion-or-increment operation `bumpHeading`. -/

structure WalkState where
  title : String
  headings : List (String × Nat)
  loginForm : Bool
  links : List String
deriving DecidableEq, Repr

def initWalkState : WalkState := ⟨"", [], false, []⟩

/-- Increment the counter of `k`, inserting it at 1 when absent; the map
update `result.Headings[...]++` of the Go walk. -/
def bumpHeading : List (String × Nat) → String → List (String × Nat)
  | [], k => [(k, 1)]
  | e :: rest, k => if e.1 = k then (e.1, e.2 + 1) :: rest else e :: bumpHeading rest k

/-- Counter value of key `k`, 0 when the key is absent. -/
def lookupCount (m : List (String × Nat)) (k : String) : Nat :=
  match m.find? (fun e => decide (e.1 = k)) with
  | some e => e.2
  | none => 0

/-- The `for _, attr := range n.Attr` scan of the `input` case: the flag is
set when any attribute pair is `type=password`. -/
def attrsHavePassword (attrs : List (String × String)) : Bool :=
  attrs.any fun a => decide (a.1 = "type" ∧ a.2 = "password")

/-- The `for _, attr := range n.Attr` scan of the `a` case: every `href`
value is appended, in attribute order. -/
def hrefValues (attrs : List (String × String)) : List String :=
  attrs.filterMap fun a => if a.1 = "href" then some a.2 else none

/-- The heading test of the default case:
`strings.HasPrefix(n.Data, "h") && len(n.Data) == 2 && n.Data[1] >= '1' && n.Data[1] <= '6'`. -/
def isHeadingTag (d : String) : Bool :=
  match d.data with
  | [h0, c] => decide (h0 = 'h') && decide (c ∈ ['1', '2', '3', '4', '5', '6'])
  | _ => false

/-- Per-node action of the walk: the `switch n.Data` statement executed for
element nodes (`parser/analyzer.go`, walk closure in `realAnalyzePage`). -/
def step (st : WalkState) (n : HNode) : WalkState :=
  if n.kind = NodeKind.element then
    if n.data = "title" then
      match n.children with
      | [] => st
      | c :: _ => { st with title := c.data }
    else if n.data = "input" then
      if attrsHavePassword n.attrs then { st with loginForm := true } else st
    else if n.data = "a" then
      { st with links := st.links ++ hrefValues n.attrs }
    else if isHeadingTag n.data then
      { st with headings := bumpHeading st.headings (strUpper n.data) }
    else st
  else st

-- The recursive walk f of realAnalyzePage: act on the node, then recurse
-- into the children in order.
mutual
def walkNode (st : WalkState) : HNode → WalkState
  | .mk k d a cs => walkList (step st (.mk k d a cs)) cs
def walkList (st : WalkState) : List HNode → WalkState
  | [] => st
  | c :: cs => walkList (walkNode st c) cs
end

/-- The whole-document walk `f(doc)` starting from the zero-valued result. -/
def walkDocument (doc : HNode) : WalkState := walkNode initWalkState doc

/-! ## The URL model

The fragment of Go `net/url` the analyzer uses: `Parse` (for the hrefs),
`ParseRequestURI` (for the page URL), `URL.IsAbs`, `URL.ResolveReference`
and `URL.String`. `Host` keeps any port, the scheme is lower-cased, hosts
and paths are kept un-decoded, user-info and `ForceQuery` are dropped. -/

structure URL where
  scheme : String
  opaquePart : String
  host : String
  path : String
  query : String
  fragment : String
deriving DecidableEq, Repr

def emptyURL : URL := ⟨"", "", "", "", "", ""⟩

/-- The scheme scanner `getScheme` of `net/url`: returns the lower-cased
scheme and the rest, `(nothing, whole input)` when no scheme is present, and
fails when the input starts with a colon. `orig` is the whole input, `acc`
the characters scanned so far in reverse. -/
def getSchemeAux (orig : List Char) : List Char → List Char → Option (List Char × List Char)
  | _, [] => some ([], orig)
  | acc, c :: rest =>
    if isAsciiAlpha c then getSchemeAux orig (c :: acc) rest
    else if isAsciiDigit c || decide (c = '+' ∨ c = '-' ∨ c = '.') then
      if acc.isEmpty then some ([], orig) else getSchemeAux orig (c :: acc) rest
    else if c = ':' then
      if acc.isEmpty then none else some (acc.reverse.map lowChar, rest)
    else some ([], orig)

/-- The port validator `validOptionalPort` of `net/url`: empty, or a colon
followed by decimal digits only. -/
def validOptionalPort : List Char → Bool
  | [] => true
  | ':' :: digits => digits.all isAsciiDigit
  | _ => false

/-- The host parser `parseHost` of `net/url`, without percent-decoding: a
bracketed IPv6 literal needs its closing bracket and a valid optional port
after it; otherwise everything after the last colon must be a valid port. -/
def parseHostL (h : List Char) : Option (List Char) :=
  if startsWithL h ['['] then
    match (h.reverse.takeWhile (fun c => decide (c ≠ ']'))).reverse with
    | colonPort =>
      if h.contains ']' ∧ validOptionalPort colonPort then some h else none
  else
    if h.contains ':' then
      let colonPort := ':' :: (h.reverse.takeWhile (fun c => decide (c ≠ ':'))).reverse
      if validOptionalPort colonPort ∧ validPercent h then some h else none
    else if validPercent h then some h else none

/-- The authority parser `parseAuthority` of `net/url` with user-info
dropped: the host is everything after the last `@`. -/
def parseAuthorityL (authority : List Char) : Option (List Char) :=
  if authority.contains '@' then
    parseHostL (authority.reverse.takeWhile (fun c => decide (c ≠ '@'))).reverse
  else parseHostL authority

/-- The core parser `parse(rawURL, viaRequest)` of `net/url` on the part of
the input before any fragment split. Follows the Go control flow: control
bytes are rejected, an empty request URL is rejected, `*` is a bare path,
the scheme is split off, the query is split at the first question mark, a
rest without a leading slash is the opaque part when a scheme is present, is
rejected for requests, and is rejected when its first segment holds a colon;
an authority is read after a leading double slash. -/
def parseGo (viaRequest : Bool) (s : List Char) : Option URL :=
  if s.any isCTL then none
  else if viaRequest ∧ s = [] then none
  else if s = ['*'] then some { emptyURL with path := "*" }
  else
    match getSchemeAux s [] s with
    | none => none
    | some (schemeL, afterScheme) =>
      let cutQ := cutChar '?' afterScheme
      let rest := cutQ.1
      let query : List Char := (cutQ.2).getD []
      if ¬ startsWithL rest ['/'] then
        if ¬ schemeL.isEmpty then
          some { emptyURL with scheme := ⟨schemeL⟩, opaquePart := ⟨rest⟩, query := ⟨query⟩ }
        else if viaRequest then none
        else if ((cutChar '/' rest).1).contains ':' then none
        else if validPercent rest then
          some { emptyURL with path := ⟨rest⟩, query := ⟨query⟩ }
        else none
      else
        if (¬ schemeL.isEmpty ∨ (¬ viaRequest ∧ ¬ startsWithL rest ['/', '/', '/'])) ∧
            startsWithL rest ['/', '/'] then
          let cutA := cutCharKeep '/' (rest.drop 2)
          match parseAuthorityL cutA.1 with
          | none => none
          | some host =>
            if validPercent cutA.2 then
              some ⟨⟨schemeL⟩, "", ⟨host⟩, ⟨cutA.2⟩, ⟨query⟩, ""⟩
            else none
        else if validPercent rest then
          some { emptyURL with scheme := ⟨schemeL⟩, path := ⟨rest⟩, query := ⟨query⟩ }
        else none

/-- Go `url.Parse`: split the fragment at the first hash, parse the rest with
`viaRequest` false, then attach the fragment when its escapes are valid. -/
def urlParse (raw : String) : Option URL :=
  let cutF := cutChar '#' raw.data
  match parseGo false cutF.1 with
  | none => none
  | some u =>
    let frag : List Char := (cutF.2).getD []
    if validPercent frag then some { u with fragment := ⟨frag⟩ } else none

/-- Go `url.ParseRequestURI`: no fragment split, `viaRequest` true. -/
def parseRequestURI (raw : String) : Option URL := parseGo true raw.data

/-- Go `URL.IsAbs`: a scheme is present. -/
def URL.isAbs (u : URL) : Bool := decide (u.scheme ≠ "")

/-- The dot-segment stack of `resolvePath`: `.` is dropped, `..` pops the
last segment, anything else (empty segments included) is pushed. -/
def dotStack (stack : List (List Char)) : List (List Char) → List (List Char)
  | [] => stack
  | e :: es =>
    if e = ['.'] then dotStack stack es
    else if e = ['.', '.'] then dotStack stack.dropLast es
    else dotStack (stack ++ [e]) es

/-- Go `net/url.resolvePath(base, ref)`: merge the reference path into the
base path (RFC 3986 section 5.3), then remove dot segments. A reference
with a leading slash replaces the base path; an empty reference keeps it; any
other reference replaces everything after the last slash of the base. The
result always carries a leading slash, a trailing slash is kept after a final
dot segment, and a doubled leading slash is collapsed by one. -/
def resolvePathGo (base ref : List Char) : List Char :=
  let full : List Char :=
    if ref.isEmpty then base
    else if startsWithL ref ['/'] then ref
    else takeToLastChar '/' base ++ ref
  if full.isEmpty then []
  else
    let elems := splitOnChar '/' full
    let elems1 := if startsWithL full ['/'] then elems.tail else elems
    let stack := dotStack [] elems1
    let lastE : List Char := (elems.getLast?).getD []
    let trail : List Char := if lastE = ['.'] ∨ lastE = ['.', '.'] then ['/'] else []
    let r : List Char := '/' :: (List.intercalate ['/'] stack ++ trail)
    match r with
    | a :: b :: rest => if b = '/' then b :: rest else a :: b :: rest
    | other => other

/-- Go `URL.ResolveReference` with user-info and `ForceQuery` dropped: an
absolute reference or one with an authority stands alone (its path
dot-cleaned); an opaque reference keeps only scheme, opaque part, query and
fragment; otherwise the base authority is kept, an empty reference path with
an empty query inherits the base query (and the base fragment when the
reference has none), and the paths are merged by `resolvePathGo`. -/
def resolveReference (u ref : URL) : URL :=
  let sch := if ref.scheme = "" then u.scheme else ref.scheme
  if ref.scheme ≠ "" ∨ ref.host ≠ "" then
    { scheme := sch, opaquePart := ref.opaquePart, host := ref.host,
      path := ⟨resolvePathGo ref.path.data []⟩, query := ref.query,
      fragment := ref.fragment }
  else if ref.opaquePart ≠ "" then
    { scheme := sch, opaquePart := ref.opaquePart, host := "", path := "",
      query := ref.query, fragment := ref.fragment }
  else
    let qf : String × String :=
      if ref.path = "" ∧ ref.query = "" then
        (u.query, if ref.fragment = "" then u.fragment else ref.fragment)
      else (ref.query, ref.fragment)
    { scheme := sch, opaquePart := "", host := u.host,
      path := ⟨resolvePathGo u.path.data ref.path.data⟩, query := qf.1,
      fragment := qf.2 }

/-- Go `URL.String` without user-info: `scheme:`, then the opaque part, or
`//host` when a scheme or host is present followed by the path (a slash is
inserted before a rootless path after a host, `./` before a rootless path
whose first segment holds a colon when nothing was written), then `?query`
and `#fragment` when non-empty. -/
def urlString (u : URL) : String :=
  let b1 : List Char := if u.scheme ≠ "" then u.scheme.data ++ [':'] else []
  let b2 : List Char :=
    if u.opaquePart ≠ "" then b1 ++ u.opaquePart.data
    else
      let b := if u.scheme ≠ "" ∨ u.host ≠ "" then b1 ++ ['/', '/'] ++ u.host.data else b1
      let b :=
        if u.path ≠ "" ∧ ¬ startsWithL u.path.data ['/'] ∧ u.host ≠ "" then b ++ ['/'] else b
      let b :=
        if b.isEmpty ∧ ((cutChar '/' u.path.data).1).contains ':' then b ++ ['.', '/'] else b
      b ++ u.path.data
  let b3 : List Char := if u.query ≠ "" then b2 ++ ['?'] ++ u.query.data else b2
  let b4 : List Char := if u.fragment ≠ "" then b3 ++ ['#'] ++ u.fragment.data else b3
  ⟨b4⟩

/-! ## Link counting and accessibility

Embedding of `countLinks` (`parser/analyzer.go`). The Go function walks the
raw href list once, skipping empty and already-seen raw strings, parses each
remaining string, resolves relative references against the base, classifies
by host equality, and spawns one HEAD-probe goroutine per classified link;
a buffered channel collects exactly one boolean per probe and a single
consumer counts the false ones. The network is abstracted by a probe
oracle on the probed URL string, standing for the deterministic mocked
transport of the tests. -/

inductive ProbeOutcome where
  | requestError
  | transportFailure
  | status (code : Nat)

/-- Outcome of one probe goroutine: false when `http.NewRequest` fails, when
`httpClient.Do` fails, or when the response status is at least 400. -/
def probeAccessible : ProbeOutcome → Bool
  | .requestError => false
  | .transportFailure => false
  | .status code => decide (code < 400)

/-- Body of the `countLinks` loop after the seen-filter: parse the raw href
(`url.Parse`), resolve a non-absolute reference against the base
(`base.ResolveReference`), and return the internal flag
(`linkURL.Host == base.Host`) with the probed string (`linkURL.String()`).
`none` when parsing fails and the link is skipped. -/
def classifyLink (base : URL) (link : String) : Option (Bool × String) :=
  match urlParse link with
  | none => none
  | some u =>
    let linkURL := if u.isAbs then u else resolveReference base u
    some (decide (linkURL.host = base.host), urlString linkURL)

/-- The `countLinks` loop: `seen` is the dedup map keyed by the raw string,
`tally` the internal and external counters, `probes` the strings handed to
the probe goroutines in spawn order. -/
def countLinksAux (base : URL) (seen : Finset String) (tally : Nat × Nat)
    (probes : List String) : List String → (Nat × Nat) × List String
  | [] => (tally, probes)
  | link :: rest =>
    if link = "" ∨ link ∈ seen then countLinksAux base seen tally probes rest
    else
      match classifyLink base link with
      | none => countLinksAux base (insert link seen) tally probes rest
      | some c =>
        let tally2 := if c.1 then (tally.1 + 1, tally.2) else (tally.1, tally.2 + 1)
        countLinksAux base (insert link seen) tally2 (probes ++ [c.2]) rest

structure LinkCounts where
  internal : Nat
  external : Nat
  inaccessible : Nat
deriving DecidableEq, Repr

/-- Whole `countLinks` call: run the loop, then drain the result channel,
counting one inaccessible link per false outcome. -/
def countLinks (base : URL) (links : List String) (oracle : String → ProbeOutcome) :
    LinkCounts :=
  let r := countLinksAux base ∅ (0, 0) [] links
  { internal := r.1.1, external := r.1.2,
    inaccessible := (r.2.filter fun s => ! probeAccessible (oracle s)).length }

/-- The strings handed to the probe goroutines, in spawn order. -/
def probedLinks (base : URL) (links : List String) : List String :=
  (countLinksAux base ∅ (0, 0) [] links).2

/-! ## Doctype classification

Embedding of `detectHTMLVersion` (`parser/analyzer.go`): walk the immediate
children of the document node, stop at the first doctype node, lower-case
its declaration and match substrings by priority. -/

/-- Priority match on the lower-cased declaration text. -/
def classifyDoctype (d : String) : String :=
  let doctype := strLower d
  if containsSub doctype "html 4.01" then "HTML 4.01"
  else if containsSub doctype "xhtml" then "XHTML"
  else if containsSub doctype "html" then "HTML 5"
  else "Unknown"

/-- The `for c := doc.FirstChild; c != nil; c = c.NextSibling` loop with its
early return at the first doctype node. -/
def detectLoop : List HNode → String
  | [] => "Unknown"
  | c :: cs => if c.kind = NodeKind.doctype then classifyDoctype c.data else detectLoop cs

def detectHTMLVersion (doc : HNode) : String := detectLoop doc.children

/-! ## The analysis pipeline

Embedding of `realAnalyzePage` (`parser/analyzer.go`). The HTTP GET and the
HTML parser are abstracted by a fetch oracle: a transport failure, or a
status code together with the parse result of the body. -/

inductive FetchOutcome where
  | transportFailure
  | response (statusCode : Nat) (body : Option HNode)

inductive AnalyzeError where
  | invalidURL
  | unreachable
  | httpError (code : Nat)
  | parseFailure
deriving DecidableEq, Repr

structure AnalysisResult where
  htmlVersion : String
  title : String
  headings : List (String × Nat)
  internalLinks : Nat
  externalLinks : Nat
  inaccessibleLinks : Nat
  loginForm : Bool
deriving DecidableEq, Repr

/-- The scheme-prepending step:
`if !strings.HasPrefix(rawURL, "http://") && !strings.HasPrefix(rawURL, "https://")`. -/
def normalizeURL (raw : String) : String :=
  if ¬ strStartsWith raw "http://" = true ∧ ¬ strStartsWith raw "https://" = true then
    "https://" ++ raw
  else raw

/-- Analysis of a fetched, parsed document: walk it, detect the doctype
version, count and probe the links, and assemble the result record. -/
def analyzeDocument (oracle : String → ProbeOutcome) (parsedURL : URL) (doc : HNode) :
    AnalysisResult :=
  let st := walkDocument doc
  let counts := countLinks parsedURL st.links oracle
  { htmlVersion := detectHTMLVersion doc, title := st.title, headings := st.headings,
    internalLinks := counts.internal, externalLinks := counts.external,
    inaccessibleLinks := counts.inaccessible, loginForm := st.loginForm }

/-- Pipeline stages after successful validation: fetch, reject transport
failures, reject statuses at least 400, reject parse failures, then analyze. -/
def fetchPhase (fetch : String → FetchOutcome) (oracle : String → ProbeOutcome)
    (parsedURL : URL) (nurl : String) : Except AnalyzeError AnalysisResult :=
  match fetch nurl with
  | .transportFailure => .error .unreachable
  | .response code body =>
    if code ≥ 400 then .error (.httpError code)
    else
      match body with
      | none => .error .parseFailure
      | some doc => .ok (analyzeDocument oracle parsedURL doc)

/-- Whole `realAnalyzePage`: prepend the scheme when missing, validate with
`url.ParseRequestURI` requiring a non-empty scheme and host, then run the
fetch phase. -/
def analyzePage (fetch : String → FetchOutcome) (oracle : String → ProbeOutcome)
    (rawURL : String) : Except AnalyzeError AnalysisResult :=
  let nurl := normalizeURL rawURL
  match parseRequestURI nurl with
  | none => .error .invalidURL
  | some parsedURL =>
    if parsedURL.scheme = "" ∨ parsedURL.host = "" then .error .invalidURL
    else fetchPhase fetch oracle parsedURL nurl

/-! ## The bounded probe phase

Transition system for the accessibility-check phase: `sem` is a buffered
channel of capacity `maxConcurrentRequests`; a probe goroutine first sends
into `sem` (blocking while ten slots are held) and only then starts its HTTP
work, and releases its slot when done. A state counts the goroutines still
waiting for a slot, the ones between acquire and release (the in-flight
probes), and the finished ones. -/

def maxConcurrentRequests : Nat := 10

structure ProbePhase where
  waiting : Nat
  inFlight : Nat
  finished : Nat
deriving DecidableEq, Repr

/-- One scheduler step: a waiting probe acquires a slot only while fewer than
`maxConcurrentRequests` are held (`sem <- struct{}{}` on the capacity-10
buffered channel), or an in-flight probe finishes and releases its slot
(`defer func() { <-sem }()`). -/
inductive ProbeStep : ProbePhase → ProbePhase → Prop
  | acquire (s : ProbePhase) (hw : 0 < s.waiting)
      (hf : s.inFlight < maxConcurrentRequests) :
      ProbeStep s ⟨s.waiting - 1, s.inFlight + 1, s.finished⟩
  | release (s : ProbePhase) (hf : 0 < s.inFlight) :
      ProbeStep s ⟨s.waiting, s.inFlight - 1, s.finished + 1⟩

/-- Reflexive-transitive closure of the scheduler step. -/
inductive ProbeReachable : ProbePhase → ProbePhase → Prop
  | refl (s : ProbePhase) : ProbeReachable s s
  | tail {s t u : ProbePhase} : ProbeReachable s t → ProbeStep t u → ProbeReachable s u

/-! ## Claim-side definitions

Direct formalizations of the wording of the specification, to be compared
with the embedded code. -/

/-- A raw href string that is non-empty and parses successfully as a URL
reference. -/
def relLink (l : String) : Bool := decide (l ≠ "") && (urlParse l).isSome

/-- A raw href string whose classified link has a failing probe under the
given oracle. -/
def badLink (base : URL) (oracle : String → ProbeOutcome) (l : String) : Bool :=
  match classifyLink base l with
  | some c => ! probeAccessible (oracle c.2)
  | none => false

/-- The title text a `<title>` element contributes: the data of its first
child, when it has one. -/
def titleOf (n : HNode) : Option String :=
  if n.kind = NodeKind.element ∧ n.data = "title" then (n.children.head?).map HNode.data
  else none

def headingKeys : List String := ["H1", "H2", "H3", "H4", "H5", "H6"]

/-- Number of element nodes of the document whose tag is the two-character
heading pattern with upper-cased form `k`. -/
def countHeading (k : String) (doc : HNode) : Nat :=
  ((preorderNode doc).filter fun n =>
    decide (n.kind = NodeKind.element) && isHeadingTag n.data && decide (strUpper n.data = k)).length

/-- Doctype classification as the specification words it: consider only the
first doctype node among the immediate children of the document node,
lower-case its declaration text and match substrings by priority. -/
def doctypeSpecVersion (doc : HNode) : String :=
  match doc.children.find? (fun c => decide (c.kind = NodeKind.doctype)) with
  | none => "Unknown"
  | some c =>
    if containsSub (strLower c.data) "html 4.01" then "HTML 4.01"
    else if containsSub (strLower c.data) "xhtml" then "XHTML"
    else if containsSub (strLower c.data) "html" then "HTML 5"
    else "Unknown"

/-! ## Concrete fixtures -/

/-- A document whose head holds two `<title>` elements, with texts A and B. -/
def docTwoTitles : HNode :=
  .mk .document "" [] [.mk .element "html" [] [.mk .element "head" [] [
    .mk .element "title" [] [.mk .text "A" [] []],
    .mk .element "title" [] [.mk .text "B" [] []]]]]

/-- A document with two `<h2>` elements and one `<header>` element. -/
def docHeadings : HNode :=
  .mk .document "" [] [.mk .element "html" [] [
    .mk .element "h2" [] [], .mk .element "header" [] [], .mk .element "h2" [] []]]

/-- Page URL `https://example.com` (no path), as validation parses it. -/
def baseSite : URL := ⟨"https", "", "example.com", "", "", ""⟩

/-- Page URL `https://example.com/a/b`, a page URL with a deep path. -/
def baseDeep : URL := ⟨"https", "", "example.com", "/a/b", "", ""⟩

/-- Page URL `https://example.com/`, a page URL with a root path. -/
def baseRoot : URL := ⟨"https", "", "example.com", "/", "", ""⟩

/-- A probe oracle answering 200 to everything. -/
def okOracle : String → ProbeOutcome := fun _ => ProbeOutcome.status 200

/-- A fetch oracle failing at the transport level. -/
def failFetch : String → FetchOutcome := fun _ => FetchOutcome.transportFailure

/-! ## Bridge lemmas: the recursive walk is a preorder fold -/

mutual
theorem walkNode_eq (st : WalkState) (n : HNode) :
    walkNode st n = (preorderNode n).foldl step st := by
  cases n with
  | mk k d a c =>
    simp only [walkNode, preorderNode, List.foldl_cons]
    exact walkList_eq _ _
theorem walkList_eq (st : WalkState) (ns : List HNode) :
    walkList st ns = (preorderList ns).foldl step st := by
  cases ns with
  | nil => simp [walkList, preorderList]
  | cons c cs =>
    simp only [walkList, preorderList, List.foldl_append]
    rw [walkList_eq, walkNode_eq]
end

/-! ## Title evolution along the walk -/

theorem step_title (st : WalkState) (n : HNode) :
    (step st n).title = (titleOf n).getD st.title := by
  obtain ⟨k, d, a, cs⟩ := n
  by_cases hk : k = NodeKind.element
  · subst hk
    by_cases hd : d = "title"
    · subst hd
      cases cs with
      | nil => simp [step, titleOf, HNode.kind, HNode.data, HNode.children]
      | cons c cc => simp [step, titleOf, HNode.kind, HNode.data, HNode.children]
    · have ht : titleOf (HNode.mk NodeKind.element d a cs) = none := by
        simp [titleOf, HNode.kind, HNode.data, hd]
      rw [ht]
      by_cases h2 : d = "input"
      · by_cases h3 : attrsHavePassword a = true <;>
          simp [step, HNode.kind, HNode.data, HNode.attrs, hd, h2, h3]
      · by_cases h3 : d = "a"
        · simp [step, HNode.kind, HNode.data, HNode.attrs, hd, h2, h3]
        · by_cases h4 : isHeadingTag d = true <;>
            simp [step, HNode.kind, HNode.data, HNode.attrs, hd, h2, h3, h4]
  · simp [step, titleOf, HNode.kind, hk]

theorem getLast?_cons_getD {α : Type} (l : List α) (a x : α) :
    ((a :: l).getLast?).getD x = (l.getLast?).getD a := by
  induction l generalizing a x with
  | nil => simp
  | cons b bs ih => rw [List.getLast?_cons_cons, ih, ih]

theorem foldl_step_title (ns : List HNode) :
    ∀ st : WalkState, (ns.foldl step st).title = ((ns.filterMap titleOf).getLast?).getD st.title := by
  induction ns with
  | nil => intro st; simp
  | cons c cs ih =>
    intro st
    cases h : titleOf c with
    | none => simp [List.foldl_cons, List.filterMap_cons, h, ih, step_title]
    | some t =>
      simp only [List.foldl_cons, List.filterMap_cons, h, ih, step_title, Option.getD_some]
      rw [getLast?_cons_getD]

/-- C2 counterexample: in a document whose head holds `<title>A</title>`
followed by `<title>B</title>`, the walk reports title B, not the text A of
the first title element: the claimed first-match-wins rule fails. -/
theorem claim2_counterexample :
    (walkDocument docTwoTitles).title = "B"
    ∧ ((preorderNode docTwoTitles).filterMap titleOf).head? = some "A"
    ∧ ¬ ((walkDocument docTwoTitles).title
          = (((preorderNode docTwoTitles).filterMap titleOf).head?).getD "") := by
  refine ⟨by decide, by decide, by decide⟩

/-- C2 amended: the title field equals the first-child text of the LAST
`<title>` element having a child that the preorder walk reaches (empty when
there is none); each later such element overwrites the earlier value. -/
theorem claim2_title_last_wins (doc : HNode) :
    (walkDocument doc).title = (((preorderNode doc).filterMap titleOf).getLast?).getD "" := by
  rw [walkDocument, walkNode_eq, foldl_step_title]
  rfl

/-! ## Doctype classification -/

theorem detectLoop_find (cs : List HNode) :
    detectLoop cs
      = ((cs.find? (fun c => decide (c.kind = NodeKind.doctype))).map
          (fun c => classifyDoctype c.data)).getD "Unknown" := by
  induction cs with
  | nil => simp [detectLoop]
  | cons c cs ih =>
    by_cases h : c.kind = NodeKind.doctype
    · rw [detectLoop, List.find?_cons_of_pos _ (by simp [h]), if_pos h]
      simp
    · rw [detectLoop, List.find?_cons_of_neg _ (by simp [h]), if_neg h, ih]

/-- C3: the doctype classifier scans only the immediate children of the
document node, takes the first doctype node, lower-cases its declaration and
matches the substrings html 4.01, xhtml, html by priority, with Unknown as
the default; equal to the classification the specification words describe. -/
theorem claim3_doctype_classifier (doc : HNode) :
    detectHTMLVersion doc = doctypeSpecVersion doc := by
  rw [detectHTMLVersion, detectLoop_find, doctypeSpecVersion]
  cases h : doc.children.find? (fun c => decide (c.kind = NodeKind.doctype)) with
  | none => simp
  | some c => simp [classifyDoctype]

/-! ## Bounded concurrency of the probe phase -/

/-- C4: from a start state with any number of waiting probes and none in
flight, every state the probe-phase scheduler can reach keeps the number of
in-flight probes at or under `maxConcurrentRequests` (10): a probe must
acquire a slot of the counting gate before its HTTP work starts, so links
beyond the first ten wait rather than run. -/
theorem claim4_bounded_concurrency (n : Nat) (s : ProbePhase)
    (h : ProbeReachable ⟨n, 0, 0⟩ s) : s.inFlight ≤ maxConcurrentRequests := by
  induction h with
  | refl => exact Nat.zero_le _
  | tail hr hs ih =>
    cases hs with
    | acquire hw hf => exact hf
    | release hf => exact le_trans (Nat.sub_le _ _) ih

/-- C4 witness: the state with two probes in flight reached by two acquire
steps from two waiting probes satisfies the bound. -/
theorem claim4_witness : (⟨0, 2, 0⟩ : ProbePhase).inFlight ≤ maxConcurrentRequests :=
  claim4_bounded_concurrency 2 ⟨0, 2, 0⟩
    (ProbeReachable.tail
      (ProbeReachable.tail (ProbeReachable.refl ⟨2, 0, 0⟩)
        (ProbeStep.acquire ⟨2, 0, 0⟩ (by decide) (by decide)))
      (ProbeStep.acquire ⟨1, 1, 0⟩ (by decide) (by decide)))

/-! ## Counting distinct classified links -/

theorem sdiff_insert_right_of_not_mem {α : Type} [DecidableEq α] (S seen : Finset α) (l : α)
    (hl : l ∉ S) : S \ insert l seen = S \ seen := by
  ext x
  simp only [Finset.mem_sdiff, Finset.mem_insert]
  constructor
  · rintro ⟨hx, h⟩
    exact ⟨hx, fun hs => h (Or.inr hs)⟩
  · rintro ⟨hx, hs⟩
    refine ⟨hx, ?_⟩
    rintro (he | hse)
    · exact hl (he ▸ hx)
    · exact hs hse

theorem insert_sdiff_right_of_mem {α : Type} [DecidableEq α] (S seen : Finset α) (l : α)
    (hl : l ∈ seen) : insert l S \ seen = S \ seen := by
  ext x
  simp only [Finset.mem_sdiff, Finset.mem_insert]
  constructor
  · rintro ⟨hx | hx, hs⟩
    · exact absurd (hx ▸ hl) hs
    · exact ⟨hx, hs⟩
  · rintro ⟨hx, hs⟩
    exact ⟨Or.inr hx, hs⟩

theorem card_insert_sdiff {α : Type} [DecidableEq α] (S seen : Finset α) (l : α)
    (hl : l ∉ seen) : (insert l S \ seen).card = 1 + (S \ insert l seen).card := by
  have h1 : insert l S \ seen = insert l (S \ insert l seen) := by
    ext x
    simp only [Finset.mem_sdiff, Finset.mem_insert]
    constructor
    · rintro ⟨hx | hx, hs⟩
      · exact Or.inl hx
      · by_cases he : x = l
        · exact Or.inl he
        · exact Or.inr ⟨hx, fun h => h.elim he hs⟩
    · rintro (he | ⟨hx, hs⟩)
      · exact ⟨Or.inl he, he ▸ hl⟩
      · exact ⟨Or.inr hx, fun h2 => hs (Or.inr h2)⟩
  have h2 : l ∉ S \ insert l seen := by simp
  rw [h1, Finset.card_insert_of_not_mem h2, Nat.add_comm]

theorem classifyLink_none_iff (base : URL) (l : String) :
    classifyLink base l = none ↔ urlParse l = none := by
  unfold classifyLink
  cases urlParse l <;> simp

theorem countLinksAux_spec (base : URL) (oracle : String → ProbeOutcome) (links : List String) :
    ∀ (seen : Finset String) (t : Nat × Nat) (ps : List String),
      ((countLinksAux base seen t ps links).1.1 + (countLinksAux base seen t ps links).1.2
          = t.1 + t.2 + (((links.filter relLink).toFinset) \ seen).card)
      ∧ (((countLinksAux base seen t ps links).2).length
          = ps.length + (((links.filter relLink).toFinset) \ seen).card)
      ∧ ((((countLinksAux base seen t ps links).2).filter
            (fun s => ! probeAccessible (oracle s))).length
          = (ps.filter (fun s => ! probeAccessible (oracle s))).length
            + ((((links.filter relLink).toFinset).filter
                (fun x => badLink base oracle x = true)) \ seen).card) := by
  induction links with
  | nil =>
    intro seen t ps
    refine ⟨by simp [countLinksAux], by simp [countLinksAux], by simp [countLinksAux]⟩
  | cons l ls ih =>
    intro seen t ps
    by_cases h0 : l = "" ∨ l ∈ seen
    · have hstep : countLinksAux base seen t ps (l :: ls) = countLinksAux base seen t ps ls := by
        simp only [countLinksAux, if_pos h0]
      have hset : ((l :: ls).filter relLink).toFinset \ seen
          = ((ls.filter relLink).toFinset) \ seen := by
        rcases h0 with h0 | h0
        · subst h0
          rw [List.filter_cons_of_neg (by simp [relLink])]
        · cases hrel : relLink l
          · rw [List.filter_cons_of_neg (by simp [hrel])]
          · rw [List.filter_cons_of_pos hrel, List.toFinset_cons]
            exact insert_sdiff_right_of_mem _ _ _ h0
      have hsetb : (((l :: ls).filter relLink).toFinset.filter
            (fun x => badLink base oracle x = true)) \ seen
          = (((ls.filter relLink).toFinset).filter (fun x => badLink base oracle x = true)) \ seen := by
        rcases h0 with h0 | h0
        · subst h0
          rw [List.filter_cons_of_neg (by simp [relLink])]
        · cases hrel : relLink l
          · rw [List.filter_cons_of_neg (by simp [hrel])]
          · rw [List.filter_cons_of_pos hrel, List.toFinset_cons, Finset.filter_insert]
            cases hb : badLink base oracle l
            · rw [if_neg (by simp)]
            · rw [if_pos rfl]
              exact insert_sdiff_right_of_mem _ _ _ h0
      rw [hstep]
      refine ⟨?_, ?_, ?_⟩
      · rw [(ih seen t ps).1, hset]
      · rw [(ih seen t ps).2.1, hset]
      · rw [(ih seen t ps).2.2, hsetb]
    · have hne : l ≠ "" := fun h => h0 (Or.inl h)
      have hns : l ∉ seen := fun h => h0 (Or.inr h)
      cases hc : classifyLink base l with
      | none =>
        have hstep : countLinksAux base seen t ps (l :: ls)
            = countLinksAux base (insert l seen) t ps ls := by
          simp only [countLinksAux, if_neg h0, hc]
        have hup : urlParse l = none := (classifyLink_none_iff base l).mp hc
        have hrel : relLink l = false := by simp [relLink, hup]
        have hnotin : l ∉ (ls.filter relLink).toFinset := by
          simp only [List.mem_toFinset, List.mem_filter]
          rintro ⟨-, h⟩
          rw [hrel] at h
          exact Bool.false_ne_true h
        have hset : ((l :: ls).filter relLink).toFinset \ seen
            = ((ls.filter relLink).toFinset) \ insert l seen := by
          rw [List.filter_cons_of_neg (by simp [hrel])]
          exact (sdiff_insert_right_of_not_mem _ _ _ hnotin).symm
        have hsetb : (((l :: ls).filter relLink).toFinset.filter
              (fun x => badLink base oracle x = true)) \ seen
            = (((ls.filter relLink).toFinset).filter
                (fun x => badLink base oracle x = true)) \ insert l seen := by
          rw [List.filter_cons_of_neg (by simp [hrel])]
          refine (sdiff_insert_right_of_not_mem _ _ _ ?_).symm
          intro h
          exact hnotin (Finset.mem_of_mem_filter _ h)
        rw [hstep]
        refine ⟨?_, ?_, ?_⟩
        · rw [(ih (insert l seen) t ps).1, hset]
        · rw [(ih (insert l seen) t ps).2.1, hset]
        · rw [(ih (insert l seen) t ps).2.2, hsetb]
      | some c =>
        have hsome : (urlParse l).isSome = true := by
          unfold classifyLink at hc
          cases hup : urlParse l
          · rw [hup] at hc; exact absurd hc (by simp)
          · rfl
        have hrel : relLink l = true := by simp [relLink, hne, hsome]
        have hstep : countLinksAux base seen t ps (l :: ls)
            = countLinksAux base (insert l seen)
                (if c.1 then (t.1 + 1, t.2) else (t.1, t.2 + 1)) (ps ++ [c.2]) ls := by
          simp only [countLinksAux, if_neg h0, hc]
        have hbadl : badLink base oracle l = ! probeAccessible (oracle c.2) := by
          simp [badLink, hc]
        have hcard : (((l :: ls).filter relLink).toFinset \ seen).card
            = 1 + (((ls.filter relLink).toFinset) \ insert l seen).card := by
          rw [List.filter_cons_of_pos hrel, List.toFinset_cons]
          exact card_insert_sdiff _ _ _ hns
        rw [hstep]
        refine ⟨?_, ?_, ?_⟩
        · rw [(ih _ _ _).1, hcard]
          cases hcc : c.1 <;> simp [hcc] <;> omega
        · rw [(ih _ _ _).2.1, hcard]
          simp
          omega
        · rw [(ih _ _ _).2.2]
          rw [List.filter_append]
          cases hb : (! probeAccessible (oracle c.2))
          · have hsetb : (((l :: ls).filter relLink).toFinset.filter
                  (fun x => badLink base oracle x = true)) \ seen
                = (((ls.filter relLink).toFinset).filter
                    (fun x => badLink base oracle x = true)) \ insert l seen := by
              rw [List.filter_cons_of_pos hrel, List.toFinset_cons, Finset.filter_insert,
                if_neg (by rw [hbadl, hb]; simp)]
              refine (sdiff_insert_right_of_not_mem _ _ _ ?_).symm
              intro h
              have := Finset.mem_filter.mp h
              rw [hbadl, hb] at this
              exact Bool.false_ne_true this.2
            rw [hsetb]
            simp [hb]
          · have hsetb : ((((l :: ls).filter relLink).toFinset.filter
                  (fun x => badLink base oracle x = true)) \ seen).card
                = 1 + ((((ls.filter relLink).toFinset).filter
                    (fun x => badLink base oracle x = true)) \ insert l seen).card := by
              rw [List.filter_cons_of_pos hrel, List.toFinset_cons, Finset.filter_insert,
                if_pos (by rw [hbadl, hb])]
              exact card_insert_sdiff _ _ _ hns
            rw [hsetb]
            simp [hb]
            omega

theorem countLinks_internal_external (base : URL) (links : List String)
    (oracle : String → ProbeOutcome) :
    (countLinks base links oracle).internal + (countLinks base links oracle).external
      = ((links.filter relLink).toFinset).card := by
  have h := (countLinksAux_spec base oracle links ∅ (0, 0) []).1
  simpa [countLinks] using h

theorem countLinks_inaccessible (base : URL) (links : List String)
    (oracle : String → ProbeOutcome) :
    (countLinks base links oracle).inaccessible
      = (((links.filter relLink).toFinset).filter (fun x => badLink base oracle x = true)).card := by
  have h := (countLinksAux_spec base oracle links ∅ (0, 0) []).2.2
  simpa [countLinks] using h

/-- C1: for every analyzed document, internal plus external link counts equal
the number of distinct raw href strings collected by the DOM walk that are
non-empty and parse successfully as URL references; distinctness is decided
on the raw string itself, so duplicate raw strings count once, different raw
strings with one resolved target count twice, and unparsable strings count
nowhere. -/
theorem claim1_distinct_link_total (oracle : String → ProbeOutcome) (base : URL) (doc : HNode) :
    (analyzeDocument oracle base doc).internalLinks + (analyzeDocument oracle base doc).externalLinks
      = (((walkDocument doc).links.filter relLink).toFinset).card := by
  simp only [analyzeDocument]
  exact countLinks_internal_external base (walkDocument doc).links oracle

/-- C5: under a deterministic probe oracle, the inaccessible count equals
exactly the number of distinct classified links whose probe fails (request
construction failure, transport failure, or status at least 400) — each
classified link contributes exactly one outcome — and the inaccessible count
never exceeds internal plus external. -/
theorem claim5_inaccessible_tally (oracle : String → ProbeOutcome) (base : URL) (doc : HNode) :
    ((analyzeDocument oracle base doc).inaccessibleLinks
        = ((((walkDocument doc).links.filter relLink).toFinset).filter
            (fun x => badLink base oracle x = true)).card)
    ∧ (analyzeDocument oracle base doc).inaccessibleLinks
        ≤ (analyzeDocument oracle base doc).internalLinks
          + (analyzeDocument oracle base doc).externalLinks := by
  constructor
  · simp only [analyzeDocument]
    exact countLinks_inaccessible base (walkDocument doc).links oracle
  · simp only [analyzeDocument]
    rw [countLinks_inaccessible base (walkDocument doc).links oracle,
      countLinks_internal_external base (walkDocument doc).links oracle]
    exact Finset.card_filter_le _ _

/-- C6: a classified link is counted internal exactly when the host of its
resolved URL equals, as a plain case-sensitive string, the host of the page
URL, and external in every other case. -/
theorem claim6_internal_iff_host_eq (base : URL) (link : String) (u : URL)
    (oracle : String → ProbeOutcome) (hp : urlParse link = some u) (hne : link ≠ "") :
    (countLinks base [link] oracle).internal
        = (if (if u.isAbs then u else resolveReference base u).host = base.host then 1 else 0)
    ∧ (countLinks base [link] oracle).external
        = (if (if u.isAbs then u else resolveReference base u).host = base.host then 0 else 1) := by
  have hcl : classifyLink base link
      = some (decide ((if u.isAbs then u else resolveReference base u).host = base.host),
              urlString (if u.isAbs then u else resolveReference base u)) := by
    simp [classifyLink, hp]
  by_cases hh : (if u.isAbs then u else resolveReference base u).host = base.host <;>
    refine ⟨?_, ?_⟩ <;>
      simp [countLinks, countLinksAux, hcl, hne, hh]

/-- C6 witness: with page host example.com, the absolute link
`https://Example.com/x` resolves to host `Example.com` and is counted
external: the host comparison is case-sensitive. -/
theorem claim6_witness :
    (countLinks baseSite ["https://Example.com/x"] okOracle).internal = 0
    ∧ (countLinks baseSite ["https://Example.com/x"] okOracle).external = 1 := by
  have h := claim6_internal_iff_host_eq baseSite "https://Example.com/x"
    ⟨"https", "", "Example.com", "/x", "", ""⟩ okOracle (by decide) (by decide)
  refine ⟨?_, ?_⟩
  · rw [h.1]; decide
  · rw [h.2]; decide

theorem urlParse_empty_string : urlParse "" = some emptyURL := by decide

/-- C10: a raw href parsing as an absolute URL with an empty host (mailto,
tel, javascript and similar schemes) is classified external — the empty host
cannot equal the non-empty validated base host — and is submitted to the
accessibility probe like any other classified link. -/
theorem claim10_hostless_external (base : URL) (link : String) (u : URL)
    (oracle : String → ProbeOutcome) (hb : base.host ≠ "") (hp : urlParse link = some u)
    (hs : u.scheme ≠ "") (hh : u.host = "") :
    classifyLink base link = some (false, urlString u)
    ∧ (countLinks base [link] oracle).internal = 0
    ∧ (countLinks base [link] oracle).external = 1
    ∧ probedLinks base [link] = [urlString u] := by
  have hne : link ≠ "" := by
    intro he
    subst he
    rw [urlParse_empty_string] at hp
    apply hs
    rw [← Option.some.inj hp]
    rfl
  have habs : u.isAbs = true := by simp [URL.isAbs, hs]
  have hdec : decide (u.host = base.host) = false := by
    rw [hh]
    exact decide_eq_false fun h => hb h.symm
  have hcl : classifyLink base link = some (false, urlString u) := by
    simp [classifyLink, hp, habs, hdec]
  refine ⟨hcl, ?_, ?_, ?_⟩ <;> simp [countLinks, probedLinks, countLinksAux, hne, hcl]

/-- C10 witness: with page host example.com, the href
`mailto:someone@example.com` parses with scheme mailto and empty host, is
counted external and is probed. -/
theorem claim10_witness :
    classifyLink baseSite "mailto:someone@example.com"
        = some (false, urlString ⟨"mailto", "someone@example.com", "", "", "", ""⟩)
    ∧ (countLinks baseSite ["mailto:someone@example.com"] okOracle).internal = 0
    ∧ (countLinks baseSite ["mailto:someone@example.com"] okOracle).external = 1
    ∧ probedLinks baseSite ["mailto:someone@example.com"]
        = [urlString ⟨"mailto", "someone@example.com", "", "", "", ""⟩] :=
  claim10_hostless_external baseSite "mailto:someone@example.com"
    ⟨"mailto", "someone@example.com", "", "", "", ""⟩ okOracle
    (by decide) (by decide) (by decide) (by decide)

/-! ## Resolution of relative references against the page URL -/

/-- C7 counterexample: the code resolves relative hrefs against the full
parsed page URL, path included, not against scheme+host only; the same
relative href c resolves to different absolute URLs under page paths /a/b
and /, so the resolved form is not independent of the page path. -/
theorem claim7_counterexample :
    (classifyLink baseDeep "c").map Prod.snd = some "https://example.com/a/c"
    ∧ (classifyLink baseRoot "c").map Prod.snd = some "https://example.com/c"
    ∧ baseDeep.scheme = baseRoot.scheme
    ∧ baseDeep.host = baseRoot.host
    ∧ ¬ ((classifyLink baseDeep "c").map Prod.snd = (classifyLink baseRoot "c").map Prod.snd) := by
  refine ⟨by decide, by decide, by decide, by decide, by decide⟩

theorem resolvePathGo_rooted (base ref : List Char) (h : startsWithL ref ['/'] = true) :
    resolvePathGo base ref = resolvePathGo [] ref := by
  have hne : ref.isEmpty = false := by
    cases ref
    · exact absurd h (by decide)
    · rfl
  simp only [resolvePathGo, hne, h, Bool.false_eq_true, if_false, if_true]

theorem resolveReference_rel (b ref : URL) (h1 : ref.scheme = "") (h2 : ref.host = "")
    (h3 : ref.opaquePart = "") (h4 : ref.path ≠ "") :
    resolveReference b ref =
      { scheme := b.scheme, opaquePart := "", host := b.host,
        path := ⟨resolvePathGo b.path.data ref.path.data⟩, query := ref.query,
        fragment := ref.fragment } := by
  obtain ⟨rs, ro, rh, rp, rq, rf⟩ := ref
  simp only at h1 h2 h3 h4
  subst h1
  subst h2
  subst h3
  simp [resolveReference, h4]

theorem resolveReference_rel_opq (b ref : URL) (h1 : ref.scheme = "") (h2 : ref.host = "")
    (h3 : ref.opaquePart ≠ "") :
    resolveReference b ref =
      { scheme := b.scheme, opaquePart := ref.opaquePart, host := "", path := "",
        query := ref.query, fragment := ref.fragment } := by
  obtain ⟨rs, ro, rh, rp, rq, rf⟩ := ref
  simp only at h1 h2 h3
  subst h1
  subst h2
  simp [resolveReference, h3]

/-- C7 amended: relative references are resolved against the full page URL
following RFC 3986, so the resolved form of a relative-path href depends on
the directory of the page path; only for hrefs whose path is rooted (leading
slash) is the outcome independent of the page path, given equal scheme and
host. -/
theorem claim7_rooted_path_invariant (b1 b2 : URL) (link : String) (u : URL)
    (hsch : b1.scheme = b2.scheme) (hh : b1.host = b2.host)
    (hp : urlParse link = some u) (hrel : u.scheme = "") (hhost : u.host = "")
    (hpath : strStartsWith u.path "/" = true) :
    classifyLink b1 link = classifyLink b2 link := by
  have hpne : u.path ≠ "" := by
    intro he
    rw [he] at hpath
    exact absurd hpath (by decide)
  have hroot : startsWithL u.path.data ['/'] = true := hpath
  have habs : u.isAbs = false := by simp [URL.isAbs, hrel]
  have hr : resolveReference b1 u = resolveReference b2 u := by
    by_cases ho : u.opaquePart = ""
    · rw [resolveReference_rel b1 u hrel hhost ho hpne, resolveReference_rel b2 u hrel hhost ho hpne,
        resolvePathGo_rooted b1.path.data _ hroot, resolvePathGo_rooted b2.path.data _ hroot,
        hsch, hh]
    · rw [resolveReference_rel_opq b1 u hrel hhost ho,
        resolveReference_rel_opq b2 u hrel hhost ho, hsch]
  simp only [classifyLink, hp, habs, Bool.false_eq_true, if_false]
  rw [hr, hh]

/-- C7 witness: the rooted href /internal classifies identically under the
page URLs https://example.com/a/b and https://example.com/. -/
theorem claim7_witness :
    classifyLink baseDeep "/internal" = classifyLink baseRoot "/internal" :=
  claim7_rooted_path_invariant baseDeep baseRoot "/internal" ⟨"", "", "", "/internal", "", ""⟩
    (by decide) (by decide) (by decide) (by decide) (by decide) (by decide)

/-! ## URL validation of the analysis entry point -/

/-- C8: when the input URL starts with neither http nor https the analyzer
first prepends https, then validates by strict request-URI parsing; a parse
failure or an empty scheme or host yields the invalid-URL error and no
result, and otherwise the fetch phase runs on the normalized URL. -/
theorem claim8_url_validation (raw : String) (fetch : String → FetchOutcome)
    (oracle : String → ProbeOutcome) :
    (¬ strStartsWith raw "http://" = true → ¬ strStartsWith raw "https://" = true →
      normalizeURL raw = "https://" ++ raw)
    ∧ (parseRequestURI (normalizeURL raw) = none →
        analyzePage fetch oracle raw = Except.error AnalyzeError.invalidURL)
    ∧ (∀ u : URL, parseRequestURI (normalizeURL raw) = some u →
        u.scheme = "" ∨ u.host = "" →
        analyzePage fetch oracle raw = Except.error AnalyzeError.invalidURL)
    ∧ (∀ u : URL, parseRequestURI (normalizeURL raw) = some u → u.scheme ≠ "" → u.host ≠ "" →
        analyzePage fetch oracle raw = fetchPhase fetch oracle u (normalizeURL raw)) := by
  refine ⟨?_, ?_, ?_, ?_⟩
  · intro h1 h2
    simp [normalizeURL, h1, h2]
  · intro h
    simp [analyzePage, h]
  · intro u h hor
    simp only [analyzePage, h]
    rw [if_pos hor]
  · intro u h hs hh2
    simp only [analyzePage, h]
    rw [if_neg (not_or.mpr ⟨hs, hh2⟩)]

/-- C8 witness: the scheme-less input example.com is normalized by prepending
https, and the input https:// (empty host after validation) fails with the
invalid-URL error. -/
theorem claim8_witness :
    normalizeURL "example.com" = "https://" ++ "example.com"
    ∧ analyzePage failFetch okOracle "https://" = Except.error AnalyzeError.invalidURL := by
  refine ⟨(claim8_url_validation "example.com" failFetch okOracle).1 (by decide) (by decide), ?_⟩
  exact (claim8_url_validation "https://" failFetch okOracle).2.2.1
    ⟨"https", "", "", "", "", ""⟩ (by decide) (Or.inr rfl)

/-! ## Heading counters along the walk -/

theorem lookupCount_cons (e : String × Nat) (rest : List (String × Nat)) (j : String) :
    lookupCount (e :: rest) j = if e.1 = j then e.2 else lookupCount rest j := by
  by_cases h : e.1 = j
  · unfold lookupCount
    rw [List.find?_cons_of_pos _ (by simp [h]), if_pos h]
  · unfold lookupCount
    rw [List.find?_cons_of_neg _ (by simp [h]), if_neg h]

theorem lookupCount_nil (j : String) : lookupCount [] j = 0 := rfl

theorem lookupCount_bumpHeading (m : List (String × Nat)) (k j : String) :
    lookupCount (bumpHeading m k) j
      = if j = k then lookupCount m j + 1 else lookupCount m j := by
  induction m with
  | nil =>
    by_cases h : j = k
    · subst h
      simp [bumpHeading, lookupCount_cons, lookupCount_nil]
    · have hk : ¬ k = j := fun hh => h hh.symm
      simp [bumpHeading, lookupCount_cons, lookupCount_nil, h, hk]
  | cons e rest ih =>
    by_cases hek : e.1 = k
    · rw [bumpHeading, if_pos hek]
      by_cases hej : e.1 = j
      · have hjk : j = k := hej.symm.trans hek
        simp only [lookupCount_cons, if_pos hej, if_pos hjk]
      · have hjk : ¬ j = k := fun h => hej (hek.trans h.symm)
        simp only [lookupCount_cons, if_neg hej, if_neg hjk]
    · rw [bumpHeading, if_neg hek]
      by_cases hej : e.1 = j
      · have hjk : ¬ j = k := fun hh => hek (hej.trans hh)
        simp only [lookupCount_cons, if_pos hej, if_neg hjk]
      · simp only [lookupCount_cons, if_neg hej, ih]

theorem step_headings (st : WalkState) (n : HNode) :
    (step st n).headings =
      if n.kind = NodeKind.element ∧ isHeadingTag n.data = true then
        bumpHeading st.headings (strUpper n.data)
      else st.headings := by
  obtain ⟨k, d, a, cs⟩ := n
  by_cases hk : k = NodeKind.element
  · subst hk
    by_cases h1 : d = "title"
    · subst h1
      have hne : isHeadingTag "title" = false := by decide
      cases cs <;> simp [step, HNode.kind, HNode.data, HNode.children, hne]
    · by_cases h2 : d = "input"
      · subst h2
        have hne : isHeadingTag "input" = false := by decide
        by_cases h3 : attrsHavePassword a = true <;>
          simp [step, HNode.kind, HNode.data, HNode.attrs, h1, h3, hne]
      · by_cases h3 : d = "a"
        · subst h3
          have hne : isHeadingTag "a" = false := by decide
          simp [step, HNode.kind, HNode.data, HNode.attrs, h1, h2, hne]
        · by_cases h4 : isHeadingTag d = true <;>
            simp [step, HNode.kind, HNode.data, h1, h2, h3, h4]
  · simp [step, HNode.kind, hk]

theorem isHeadingTag_strUpper_mem (d : String) (h : isHeadingTag d = true) :
    strUpper d ∈ headingKeys := by
  obtain ⟨l⟩ := d
  rcases l with _ | ⟨a, _ | ⟨b, _ | ⟨c, t⟩⟩⟩
  · simp [isHeadingTag] at h
  · simp [isHeadingTag] at h
  · simp only [isHeadingTag, Bool.and_eq_true, decide_eq_true_eq] at h
    obtain ⟨ha, hb⟩ := h
    subst ha
    simp only [List.mem_cons, List.not_mem_nil, or_false] at hb
    rcases hb with rfl | rfl | rfl | rfl | rfl | rfl <;> decide
  · simp [isHeadingTag] at h

theorem bumpHeading_keys (m : List (String × Nat)) (k : String) :
    ∀ j ∈ (bumpHeading m k).map Prod.fst, j ∈ m.map Prod.fst ∨ j = k := by
  induction m with
  | nil =>
    intro j hj
    simp [bumpHeading] at hj
    exact Or.inr hj
  | cons e rest ih =>
    intro j hj
    by_cases hek : e.1 = k
    · rw [bumpHeading, if_pos hek] at hj
      simp only [List.map_cons, List.mem_cons] at hj ⊢
      exact Or.inl hj
    · rw [bumpHeading, if_neg hek] at hj
      simp only [List.map_cons, List.mem_cons] at hj ⊢
      rcases hj with hj | hj
      · exact Or.inl (Or.inl hj)
      · rcases ih j hj with h | h
        · exact Or.inl (Or.inr h)
        · exact Or.inr h

theorem bumpHeading_pos (m : List (String × Nat)) (k : String)
    (h : ∀ e ∈ m, 1 ≤ e.2) : ∀ e ∈ bumpHeading m k, 1 ≤ e.2 := by
  induction m with
  | nil =>
    intro e he
    simp [bumpHeading] at he
    subst he
    exact le_refl 1
  | cons e0 rest ih =>
    intro e he
    by_cases hek : e0.1 = k
    · rw [bumpHeading, if_pos hek] at he
      rcases List.mem_cons.mp he with he | he
      · subst he
        simp
      · exact h e (List.mem_cons_of_mem _ he)
    · rw [bumpHeading, if_neg hek] at he
      rcases List.mem_cons.mp he with he | he
      · subst he
        exact h e (List.mem_cons_self _ _)
      · exact ih (fun x hx => h x (List.mem_cons_of_mem _ hx)) e he

theorem bumpHeading_nodup (m : List (String × Nat)) (k : String)
    (h : (m.map Prod.fst).Nodup) : ((bumpHeading m k).map Prod.fst).Nodup := by
  induction m with
  | nil => simp [bumpHeading]
  | cons e rest ih =>
    rw [List.map_cons, List.nodup_cons] at h
    by_cases hek : e.1 = k
    · rw [bumpHeading, if_pos hek]
      rw [List.map_cons, List.nodup_cons]
      exact ⟨h.1, h.2⟩
    · rw [bumpHeading, if_neg hek]
      rw [List.map_cons, List.nodup_cons]
      refine ⟨?_, ih h.2⟩
      intro hmem
      rcases bumpHeading_keys rest k e.1 hmem with hm | hm
      · exact h.1 hm
      · exact hek hm

theorem lookupCount_of_mem (m : List (String × Nat)) (hnd : (m.map Prod.fst).Nodup)
    (k : String) (v : Nat) (h : (k, v) ∈ m) : lookupCount m k = v := by
  induction m with
  | nil => simp at h
  | cons e rest ih =>
    rw [List.map_cons, List.nodup_cons] at hnd
    rcases List.mem_cons.mp h with he | hrest
    · rw [← he, lookupCount_cons, if_pos rfl]
    · have he1 : e.1 ≠ k := by
        intro hek
        apply hnd.1
        rw [hek]
        exact List.mem_map.mpr ⟨(k, v), hrest, rfl⟩
      rw [lookupCount_cons, if_neg he1]
      exact ih hnd.2 hrest

theorem foldl_step_lookup (ns : List HNode) :
    ∀ (st : WalkState) (k : String),
      lookupCount ((ns.foldl step st).headings) k
        = lookupCount st.headings k
          + (ns.filter fun n =>
              decide (n.kind = NodeKind.element) && isHeadingTag n.data
                && decide (strUpper n.data = k)).length := by
  induction ns with
  | nil => intro st k; simp
  | cons n ns ih =>
    intro st k
    rw [List.foldl_cons, ih, step_headings]
    by_cases h1 : n.kind = NodeKind.element <;>
      by_cases h2 : isHeadingTag n.data = true <;>
        by_cases h3 : k = strUpper n.data <;>
          first
          | (simp [h1, h2, h3, lookupCount_bumpHeading, List.filter_cons] <;> omega)
          | (simp [h1, h2, h3, Ne.symm h3, lookupCount_bumpHeading, List.filter_cons] <;> omega)

theorem foldl_step_keys (ns : List HNode) :
    ∀ (st : WalkState) (j : String),
      j ∈ ((ns.foldl step st).headings).map Prod.fst →
        j ∈ st.headings.map Prod.fst ∨ j ∈ headingKeys := by
  induction ns with
  | nil => intro st j hj; exact Or.inl hj
  | cons n ns ih =>
    intro st j hj
    rcases ih (step st n) j hj with h | h
    · rw [step_headings] at h
      by_cases hc : n.kind = NodeKind.element ∧ isHeadingTag n.data = true
      · rw [if_pos hc] at h
        rcases bumpHeading_keys st.headings (strUpper n.data) j h with hm | hm
        · exact Or.inl hm
        · exact Or.inr (hm ▸ isHeadingTag_strUpper_mem n.data hc.2)
      · rw [if_neg hc] at h
        exact Or.inl h
    · exact Or.inr h

theorem foldl_step_pos (ns : List HNode) :
    ∀ st : WalkState, (∀ e ∈ st.headings, 1 ≤ e.2) →
      ∀ e ∈ ((ns.foldl step st).headings), 1 ≤ e.2 := by
  induction ns with
  | nil => intro st h; exact h
  | cons n ns ih =>
    intro st h
    refine ih (step st n) ?_
    rw [step_headings]
    by_cases hc : n.kind = NodeKind.element ∧ isHeadingTag n.data = true
    · rw [if_pos hc]
      exact bumpHeading_pos st.headings (strUpper n.data) h
    · rw [if_neg hc]
      exact h

theorem foldl_step_nodup (ns : List HNode) :
    ∀ st : WalkState, (st.headings.map Prod.fst).Nodup →
      (((ns.foldl step st).headings).map Prod.fst).Nodup := by
  induction ns with
  | nil => intro st h; exact h
  | cons n ns ih =>
    intro st h
    refine ih (step st n) ?_
    rw [step_headings]
    by_cases hc : n.kind = NodeKind.element ∧ isHeadingTag n.data = true
    · rw [if_pos hc]
      exact bumpHeading_nodup st.headings (strUpper n.data) h
    · rw [if_neg hc]
      exact h

/-- C9: every entry of the headings map has a key among H1 to H6 and a value
at least 1, and the value of a present key equals the number of element
nodes whose tag is the exact two-character heading pattern upper-casing to
that key; longer tags starting with h, such as header or hgroup, are never
counted. -/
theorem claim9_headings_exact (doc : HNode) (k : String) (v : Nat)
    (h : (k, v) ∈ (walkDocument doc).headings) :
    k ∈ headingKeys ∧ 1 ≤ v ∧ v = countHeading k doc := by
  rw [walkDocument, walkNode_eq] at h
  refine ⟨?_, ?_, ?_⟩
  · rcases foldl_step_keys (preorderNode doc) initWalkState k
        (List.mem_map.mpr ⟨(k, v), h, rfl⟩) with hm | hm
    · simp [initWalkState] at hm
    · exact hm
  · exact foldl_step_pos (preorderNode doc) initWalkState (by simp [initWalkState]) (k, v) h
  · have hnd := foldl_step_nodup (preorderNode doc) initWalkState (by simp [initWalkState])
    have hl := lookupCount_of_mem _ hnd k v h
    have hcount := foldl_step_lookup (preorderNode doc) initWalkState k
    rw [hl] at hcount
    rw [countHeading]
    simpa [initWalkState, lookupCount_nil] using hcount

/-- C9 witness: a document with two `<h2>` elements and one `<header>`
element yields the single entry H2 with value 2. -/
theorem claim9_witness :
    ("H2", 2) ∈ (walkDocument docHeadings).headings
    ∧ ("H2" ∈ headingKeys ∧ 1 ≤ 2 ∧ 2 = countHeading "H2" docHeadings) := by
  have hm : ("H2", 2) ∈ (walkDocument docHeadings).headings := by decide
  exact ⟨hm, claim9_headings_exact docHeadings "H2" 2 hm⟩
